import Mathlib

/-!
Shallow embedding of the parallel depth-first search engine of
`gecode/search/parallel/dfs.cpp` (C++ namespace `Gecode::Search::Parallel`)
and proofs about its behaviour.  Spaces are represented by natural-number
identifiers; the `unsigned int` counters of the source are represented by
`Nat` (every statement proved here moves the counters by single increments
and decrements bounded by the worker count, so no wrap-around is reachable).
Mutex-protected code regions are modelled as atomic state updates.
-/

namespace GecodeDfs

/-- Commands from engine to workers (`DfsEngine::Cmd`, dfs.cpp lines 69-73). -/
inductive Cmd where
  | C_WORK
  | C_WAIT
  | C_TERMINATE
deriving DecidableEq, Repr

/-- The engine-side command state: the `volatile Cmd _cmd` field together
with whether the engine currently holds the wait mutex `_m_wait`
(dfs.cpp lines 74-78). -/
structure CmdState where
  cmd : Cmd
  lockHeld : Bool
deriving DecidableEq, Repr

/-- Write of the `_cmd` field. -/
def setCmd (c : Cmd) (s : CmdState) : CmdState := { s with cmd := c }

/-- The engine acquires `_m_wait`. -/
def acquireWait (s : CmdState) : CmdState := { s with lockHeld := true }

/-- The engine releases `_m_wait`. -/
def releaseWait (s : CmdState) : CmdState := { s with lockHeld := false }

/-- `DfsEngine::block` (dfs.cpp lines 83-86): `_cmd = C_WAIT;
_m_wait.acquire();` — publish the command, then take the lock. -/
def block (s : CmdState) : CmdState := acquireWait (setCmd .C_WAIT s)

/-- `DfsEngine::release` (dfs.cpp lines 88-91): `_cmd = c;
_m_wait.release();` — publish the command, then drop the lock. -/
def release (c : Cmd) (s : CmdState) : CmdState := releaseWait (setCmd c s)

/-- The only two operations through which the engine ever touches `_cmd`
and its own hold of `_m_wait`. -/
inductive EOp where
  | block
  | release (c : Cmd)
deriving DecidableEq, Repr

/-- Run one engine command operation. -/
def applyOp : EOp → CmdState → CmdState
  | .block => block
  | .release c => release c

/-- Run a sequence of engine command operations. -/
def execOps (l : List EOp) (s : CmdState) : CmdState :=
  l.foldl (fun s1 op => applyOp op s1) s

/-- The command value published by an operation. -/
def cmdWritten : EOp → Cmd
  | .block => .C_WAIT
  | .release c => c

/-- The `_cmd`/`_m_wait` operations performed by one `next()` call
(dfs.cpp lines 266-317): none on the two early returns, otherwise
`release(C_WORK)` (line 283) followed by `block()` on whichever exit the
wait loop takes (lines 302 and 310).  `full` records whether the call went
past the early returns. -/
def nextCallOps (full : Bool) : List EOp :=
  if full then [.release .C_WORK, .block] else []

/-- The `_cmd`/`_m_wait` operations of a complete engine run: the
constructor's `block()` (dfs.cpp line 253), then one entry per `next()`
call, then the destructor's `release(C_TERMINATE)` (line 337). -/
def runCalls (ks : List Bool) : List EOp :=
  .block :: (ks.flatMap nextCallOps ++ [.release .C_TERMINATE])

/-- Command-write sequences of the shape `(C_WORK, C_WAIT)*, C_TERMINATE`. -/
inductive CmdCycles : List Cmd → Prop where
  | last : CmdCycles [.C_TERMINATE]
  | cycle {l : List Cmd} : CmdCycles l → CmdCycles (.C_WORK :: .C_WAIT :: l)

/-- Command-write sequences `C_WAIT, (C_WORK, C_WAIT)*, C_TERMINATE`. -/
inductive EngineCmdSeq : List Cmd → Prop where
  | intro {l : List Cmd} : CmdCycles l → EngineCmdSeq (.C_WAIT :: l)

/-- The engine's search-related shared state, guarded by `m_search`
(dfs.cpp lines 119-129): the content of the solution queue (front at the
head), the busy-worker count `n_busy`, and the sticky flag `has_stopped`. -/
structure SearchState where
  solutions : List Nat
  n_busy : Nat
  has_stopped : Bool
deriving DecidableEq, Repr

/-- The null-pointer sentinel `NULL`, an integer constant equal to zero;
dfs.cpp line 306 compares the `unsigned int` field `n_busy` against it. -/
def NULLsentinel : Nat := 0

namespace DfsEngine

/-- `DfsEngine::signal` (dfs.cpp lines 319-322):
`solutions.empty() && (n_busy > 0) && !has_stopped`. -/
def signal (st : SearchState) : Bool :=
  st.solutions.isEmpty && decide (0 < st.n_busy) && !st.has_stopped

/-- `DfsEngine::solution(s)` (dfs.cpp lines 133-141), under `m_search`:
evaluate `signal()`, push `s`, and call `e_search.signal()` iff it held.
Returns the updated state and whether `e_search.signal()` was called. -/
def solution (st : SearchState) (s : Nat) : SearchState × Bool :=
  let bs := signal st
  ({ st with solutions := st.solutions ++ [s] }, bs)

/-- `DfsEngine::idle` (dfs.cpp lines 142-150), under `m_search`: evaluate
`signal()`, decrement `n_busy`, and call `e_search.signal()` iff `signal()`
held and the decremented `n_busy` is zero. -/
def idle (st : SearchState) : SearchState × Bool :=
  let bs := signal st
  let st1 := { st with n_busy := st.n_busy - 1 }
  (st1, bs && decide (st1.n_busy = 0))

/-- `DfsEngine::busy` (dfs.cpp lines 151-157), under `m_search`: increment
`n_busy`; no signal is ever sent. -/
def busy (st : SearchState) : SearchState × Bool :=
  ({ st with n_busy := st.n_busy + 1 }, false)

/-- `DfsEngine::stop` (dfs.cpp lines 158-166), under `m_search`: evaluate
`signal()`, set `has_stopped`, and call `e_search.signal()` iff it held. -/
def stop (st : SearchState) : SearchState × Bool :=
  let bs := signal st
  ({ st with has_stopped := true }, bs)

/-- `DfsEngine::stopped` (dfs.cpp lines 330-333). -/
def stopped (st : SearchState) : Bool := st.has_stopped

/-- The first check of `DfsEngine::next` (dfs.cpp lines 269-281), performed
under `m_search`: `(some r, st1)` means the call returns `r` right there
leaving state `st1`; `(none, st1)` means it falls through to
`release(C_WORK)` and the wait loop. -/
def nextFirstCheck (st : SearchState) : Option (Option Nat) × SearchState :=
  match st.solutions with
  | s :: rest => (some (some s), { st with solutions := rest })
  | [] =>
    if st.n_busy = 0 ∨ st.has_stopped = true then (some none, st) else (none, st)

/-- One evaluation of the body of `next()`'s wait loop after
`e_search.wait()` (dfs.cpp lines 295-313), performed under `m_search`; the
exhaustion comparison on line 306 is `n_busy == NULL`.  `(some r, st1)`:
the loop exits (after `block()`) returning `r`; `(none, st1)`: stale wake,
the loop runs again. -/
def nextLoopCheck (st : SearchState) : Option (Option Nat) × SearchState :=
  match st.solutions with
  | s :: rest => (some (some s), { st with solutions := rest })
  | [] =>
    if st.n_busy = NULLsentinel ∨ st.has_stopped = true then (some none, st)
    else (none, st)

end DfsEngine

/-- Global engine state for interleaved executions: the `m_search`-guarded
shared state together with each worker's `idle` flag (`DfsWorker::idle`,
dfs.cpp line 197, guarded by that worker's own mutex `m`).  Entry `i` of
`idleW` is worker `i`'s flag. -/
structure EState where
  search : SearchState
  idleW : List Bool
deriving DecidableEq, Repr

/-- Engine state right after construction (dfs.cpp lines 242-264): every
worker starts with `idle = false` (line 351) and the engine sets
`n_busy = workers()` (line 262), `has_stopped = false` (line 263), with an
empty solution queue. -/
def initState (N : Nat) : EState :=
  { search := { solutions := [], n_busy := N, has_stopped := false }
    idleW := List.replicate N false }

/-- Atomic events through which the shared search state changes during a
run, each tied to the code region it models. -/
inductive Ev where
  /-- Worker `i` delivers solution `s`: run lines 467-477 followed by
  `engine.solution(s)`. -/
  | solutionFound (i s : Nat)
  /-- Worker `i` goes idle: run lines 501-505 (`idle = true` under `m`,
  then `engine.idle()`). -/
  | idleReport (i : Nat)
  /-- Worker `t` steals from worker `v`: `DfsWorker::steal` lines 386-403
  (including `engine.busy()`) followed by `find` lines 414-417
  (`idle = false; cur = s` under `m`).  The thief performs no intervening
  shared-state action between the two halves, so the pair is modelled as
  one transition. -/
  | workStolen (t v : Nat)
  /-- Worker `i` reports stop: run lines 452-455 followed by
  `engine.stop()`. -/
  | stopReport (i : Nat)
  /-- A caller's `next()` call (dfs.cpp lines 266-317) returns `r`; the
  state recorded is the one `next()` observed under `m_search` at the check
  that made it return. -/
  | nextReturn (r : Option Nat)
deriving DecidableEq, Repr

/-- One atomic transition of the interleaved execution.  Worker-side events
require the acting worker to be non-idle: a solution, a stop report or an
idle report is made by a worker that is exploring a space (run lines
450-498), and a steal only succeeds on a non-idle victim
(`DfsWorker::steal` lines 394-395) while the thief is sweeping inside
`find()` (hence idle, run lines 446-449). -/
inductive Step : EState → Ev → EState → Prop where
  | solutionFound {st : EState} {i s : Nat}
      (h : st.idleW.get? i = some false) :
      Step st (.solutionFound i s)
        { st with search := (DfsEngine.solution st.search s).1 }
  | idleReport {st : EState} {i : Nat}
      (h : st.idleW.get? i = some false) :
      Step st (.idleReport i)
        { search := (DfsEngine.idle st.search).1, idleW := st.idleW.set i true }
  | workStolen {st : EState} {t v : Nat}
      (hv : st.idleW.get? v = some false) (ht : st.idleW.get? t = some true) :
      Step st (.workStolen t v)
        { search := (DfsEngine.busy st.search).1, idleW := st.idleW.set t false }
  | stopReport {st : EState} {i : Nat}
      (h : st.idleW.get? i = some false) :
      Step st (.stopReport i)
        { st with search := (DfsEngine.stop st.search).1 }
  | nextSome {st : EState} {s : Nat} {rest : List Nat}
      (h : st.search.solutions = s :: rest) :
      Step st (.nextReturn (some s))
        { st with search := { st.search with solutions := rest } }
  | nextNone {st : EState}
      (h1 : st.search.solutions = [])
      (h2 : st.search.n_busy = 0 ∨ st.search.has_stopped = true) :
      Step st (.nextReturn none) st

/-- A finite interleaved execution: `Trace st evs st1` means the events
`evs` lead from `st` to `st1`, each by a `Step`. -/
inductive Trace : EState → List Ev → EState → Prop where
  | nil (st : EState) : Trace st [] st
  | cons {st st1 st2 : EState} {e : Ev} {es : List Ev} :
      Step st e st1 → Trace st1 es st2 → Trace st (e :: es) st2

/-- The claim formalised for refutation: once some `next()` call has
returned `None` (`nextReturn none`), every subsequent `next()` call also
returns `None`, in every reachable interleaving. -/
def NextIdempotentClaim : Prop :=
  ∀ (N : Nat) (evs1 : List Ev) (st1 st2 : EState) (evs2 : List Ev)
    (st3 st4 : EState) (r : Option Nat),
    Trace (initState N) evs1 st1 → Step st1 (.nextReturn none) st2 →
    Trace st2 evs2 st3 → Step st3 (.nextReturn r) st4 → r = none

/-- Events of the engine constructor body (`DfsEngine::DfsEngine`, dfs.cpp
lines 242-264), one per statement, in program order. -/
inductive CtorEv where
  /-- `_worker[i] = new DfsWorker(...)`; `withRoot` records whether the
  worker received the root space `s` (line 248) or `NULL` (line 251). -/
  | allocWorker (i : Nat) (withRoot : Bool)
  /-- `_cmd = C_WAIT` inside `block()` (line 84, called from line 253). -/
  | setCmdWait
  /-- `_m_wait.acquire()` inside `block()` (line 85). -/
  | acquireWaitLock
  /-- `new (&_thread[i]) Support::Thread(_worker[i])` (line 258). -/
  | spawnThread (i : Nat)
  /-- `_n_not_terminated = workers()` (line 260). -/
  | setNNotTerminated
  /-- `n_busy = workers()` (line 262). -/
  | setNBusy
  /-- `has_stopped = false` (line 263). -/
  | setHasStopped
deriving DecidableEq, Repr

/-- The event sequence of the engine constructor for `N = workers()`
(dfs.cpp lines 242-264), statement by statement: worker 0 is allocated with
the root, workers `1..N-1` with `NULL`; then `block()`; then the `N`
threads are spawned; then `_n_not_terminated`, `n_busy` and `has_stopped`
are initialised. -/
def ctorEvents (N : Nat) : List CtorEv :=
  (CtorEv.allocWorker 0 true ::
      (List.range (N - 1)).map (fun i => CtorEv.allocWorker (i + 1) false))
    ++ [CtorEv.setCmdWait, CtorEv.acquireWaitLock]
    ++ (List.range N).map (fun i => CtorEv.spawnThread i)
    ++ [CtorEv.setNNotTerminated, CtorEv.setNBusy, CtorEv.setHasStopped]

/-- Every event satisfying `p` occurs strictly before every event
satisfying `q` in the list `l`. -/
def precedes (p q : CtorEv → Bool) (l : List CtorEv) : Prop :=
  ∀ i j, ∀ hi : i < l.length, ∀ hj : j < l.length,
    p (l.get ⟨i, hi⟩) = true → q (l.get ⟨j, hj⟩) = true → i < j

/-- Recogniser for worker-allocation events. -/
def isAlloc : CtorEv → Bool
  | .allocWorker _ _ => true
  | _ => false

/-- Recogniser for the `_cmd = C_WAIT` event. -/
def isSetCmdWait : CtorEv → Bool
  | .setCmdWait => true
  | _ => false

/-- Recogniser for the `_m_wait.acquire()` event. -/
def isAcquire : CtorEv → Bool
  | .acquireWaitLock => true
  | _ => false

/-- Recogniser for thread-spawn events. -/
def isSpawn : CtorEv → Bool
  | .spawnThread _ => true
  | _ => false

/-- Recogniser for the `n_busy = workers()` event. -/
def isSetNBusy : CtorEv → Bool
  | .setNBusy => true
  | _ => false

/-- Recogniser for the `has_stopped = false` event. -/
def isSetHasStopped : CtorEv → Bool
  | .setHasStopped => true
  | _ => false

/-- The claim formalised for refutation: the constructor allocates the
workers, then sets `cmd = WAIT`, acquires the wait lock and initialises
`n_busy` and `has_stopped`, and only then spawns the threads. -/
def CtorOrderClaim : Prop :=
  ∀ N : Nat, 1 ≤ N →
    precedes isAlloc isSetCmdWait (ctorEvents N) ∧
    precedes isSetCmdWait isAcquire (ctorEvents N) ∧
    precedes isAcquire isSetNBusy (ctorEvents N) ∧
    precedes isAcquire isSetHasStopped (ctorEvents N) ∧
    precedes isSetNBusy isSpawn (ctorEvents N) ∧
    precedes isSetHasStopped isSpawn (ctorEvents N)

/-- Status values returned by `Space::status` (`SpaceStatus`). -/
inductive SpStatus where
  | SS_FAILED
  | SS_SOLVED
  | SS_BRANCH
deriving DecidableEq, Repr

/-- A root space handed to a worker constructor: an identifier plus whether
its `status` call returns `SS_FAILED`. -/
structure Space where
  id : Nat
  failed : Bool
deriving DecidableEq, Repr

/-- Modelled from the spec: a search-path frame.  The `Path` class
(gecode/search/parallel/path.hh) is not among the sources; per spec section
4.1 a frame stores a branching description with `alternatives() ≥ 1` and
the index `next_alt` of the next alternative to try (the snapshot is
omitted: no claim settled here depends on it). -/
structure Frame where
  alts : Nat
  next_alt : Nat
deriving DecidableEq, Repr

/-- Modelled from the spec: `Path::next` (path.hh, not among the sources)
"pops frames until one with `next_alt < desc.alternatives()` is found;
returns `true` on success, `false` when empty" (spec section 4.1).  The head
of the list is the top of the stack. -/
def pathNext (p : List Frame) : Bool × List Frame :=
  match p.dropWhile (fun f => decide (f.alts ≤ f.next_alt)) with
  | [] => (false, [])
  | f :: l => (true, f :: l)

/-- The `DfsWorker` fields relevant to the claims (dfs.cpp lines 183-215)
together with the counters inherited from `Worker`.  Modelled from the
spec: the `Worker` base class (gecode/search/worker.hh, not among the
sources) holds monotonic counters `node`, `fail` and `memory` that start
at zero (spec sections 4.4 and 8, scenario 1). -/
structure DfsWorkerSt where
  path : List Frame
  cur : Option Nat
  d : Nat
  idle : Bool
  node : Nat
  fail : Nat
  memory : Nat
deriving DecidableEq, Repr

/-- `DfsWorker::DfsWorker` (dfs.cpp lines 350-362): `d = 0`, `idle = false`
and an empty path; with a root space, `cur` is `NULL` and `fail` is
incremented when the root's status is `SS_FAILED`, otherwise `cur` is a
snapshot of the root (`snapshot` from search/support.hh, not among the
sources, is modelled as the root itself); with `s == NULL`, `cur` is
`NULL`. -/
def mkDfsWorker (s : Option Space) : DfsWorkerSt :=
  let w0 : DfsWorkerSt :=
    { path := [], cur := none, d := 0, idle := false
      node := 0, fail := 0, memory := 0 }
  match s with
  | some sp =>
    if sp.failed then { w0 with cur := none, fail := w0.fail + 1 }
    else { w0 with cur := some sp.id }
  | none => w0

/-- The statistics record (`Gecode::Search::Statistics`, declared in
gecode/search.hh, not among the sources).  Modelled from the spec: the
counters `node`, `fail`, `memory`, default-constructed to zero. -/
structure Statistics where
  node : Nat
  fail : Nat
  memory : Nat
deriving DecidableEq, Repr

namespace DfsWorker

/-- `DfsWorker::statistics` (dfs.cpp lines 519-524): copy the worker's own
counters and add `path.size()` to `memory`. -/
def statistics (w : DfsWorkerSt) : Statistics :=
  { node := w.node, fail := w.fail, memory := w.memory + w.path.length }

end DfsWorker

/-- `DfsEngine::statistics` (dfs.cpp lines 324-328): the body is
`Statistics s; return s;` — it returns a default-constructed `Statistics`
without consulting any worker. -/
def DfsEngine.statisticsImpl (_ws : List DfsWorkerSt) : Statistics :=
  { node := 0, fail := 0, memory := 0 }

/-- Modelled from the spec (section 4.4): what the claim says
`DfsEngine::statistics` returns — the sum over all workers of
`DfsWorker::statistics()`, i.e. the per-worker counters plus their current
`path.size()`s. -/
def specStatistics (ws : List DfsWorkerSt) : Statistics :=
  ws.foldl
    (fun acc w =>
      { node := acc.node + (DfsWorker.statistics w).node
        fail := acc.fail + (DfsWorker.statistics w).fail
        memory := acc.memory + (DfsWorker.statistics w).memory })
    { node := 0, fail := 0, memory := 0 }

/-- External parameters of a `C_WORK` iteration of `DfsWorker::run`
(dfs.cpp lines 443-513): the outcome of `cur->status(*this)` for each
space, the alternative count of the description returned by `path.push`,
whether the stop check `stop(engine.opt().stop, path.size())` fires as a
function of the path size, the option `c_d`, and the outcome of
`path.recompute`. -/
structure WEnv where
  status : Nat → SpStatus
  alts : Nat → Nat
  stopP : Nat → Bool
  c_d : Nat
  recomp : List Frame → Nat × List Frame

/-- Calls a worker makes during a `C_WORK` iteration, in order. -/
inductive WEv where
  /-- `engine.stop()` (line 455). -/
  | engineStop
  /-- `engine.solution(s)` (line 476). -/
  | engineSolution (s : Nat)
  /-- `path.push(*this, cur, c)` (line 489) with the snapshot clone `c`. -/
  | pathPush (cur : Nat) (snapshot : Option Nat)
  /-- `cur->commit(*desc, a)` (line 491). -/
  | commitAlt (a : Nat)
  /-- `engine.idle()` (line 505). -/
  | engineIdle
  /-- `find()` (line 449). -/
  | findCall
deriving DecidableEq, Repr

/-- One `C_WORK` iteration of `DfsWorker::run` (dfs.cpp lines 443-513):
the updated worker state and the calls it makes.  On `SS_BRANCH` the clone
`c` of lines 481-488 is passed to `path.push`; the pushed frame receives
`next_alt = 1` (modelled from the spec, section 4.1, `path.hh` not being
among the sources). -/
def workStep (env : WEnv) (w : DfsWorkerSt) : DfsWorkerSt × List WEv :=
  if w.idle then (w, [.findCall])
  else
    match w.cur with
    | some c =>
      if env.stopP w.path.length then (w, [.engineStop])
      else
        let w1 := { w with node := w.node + 1 }
        match env.status c with
        | .SS_FAILED => ({ w1 with fail := w1.fail + 1, cur := none }, [])
        | .SS_SOLVED => ({ w1 with cur := none }, [.engineSolution c])
        | .SS_BRANCH =>
          let cd : Option Nat × Nat :=
            if w1.d = 0 ∨ env.c_d ≤ w1.d then (some c, 1) else (none, w1.d + 1)
          ({ w1 with
              d := cd.2,
              path := { alts := env.alts c, next_alt := 1 } :: w1.path },
            [.pathPush c cd.1, .commitAlt 0])
    | none =>
      let np := pathNext w.path
      if np.1 then
        let cp := env.recomp np.2
        ({ w with cur := some cp.1, path := cp.2 }, [])
      else ({ w with path := np.2, idle := true }, [.engineIdle])

/-- One iteration of the command dispatch of `DfsWorker::run` (dfs.cpp
lines 428-516).  Under `C_WAIT` the worker only runs `engine.wait()`
(acquire then release of `_m_wait`), leaving its state unchanged; under
`C_TERMINATE` it registers termination and returns (no further iteration
below ever passes `C_TERMINATE` before the end); under `C_WORK` it runs
`workStep`. -/
def runStep (env : WEnv) (c : Cmd) (w : DfsWorkerSt) : DfsWorkerSt × List WEv :=
  match c with
  | .C_WAIT => (w, [])
  | .C_TERMINATE => (w, [])
  | .C_WORK => workStep env w

/-- Iterated `runStep` over a list of observed commands, accumulating the
calls made. -/
def runSteps (env : WEnv) : List Cmd → DfsWorkerSt → DfsWorkerSt × List WEv
  | [], w => (w, [])
  | c :: cs, w =>
    let r := runStep env c w
    let r1 := runSteps env cs r.1
    (r1.1, r.2 ++ r1.2)

/-- Iterated `workStep` (consecutive `C_WORK` iterations), accumulating the
calls made. -/
def runWork (env : WEnv) (w : DfsWorkerSt) : Nat → DfsWorkerSt × List WEv
  | 0 => (w, [])
  | Nat.succ k =>
    let r := workStep env w
    let r1 := runWork env r.1 k
    (r1.1, r.2 ++ r1.2)

/-- Number of `engine.stop()` calls in a list of worker calls. -/
def countStops (evs : List WEv) : Nat :=
  evs.countP (fun e => decide (e = WEv.engineStop))

/-- The claim formalised for refutation: in any run of `C_WORK` iterations
of a worker, if the stop predicate ever fired (at least one `engine.stop()`
call), then `engine.stop()` was called exactly once. -/
def StopOnceClaim : Prop :=
  ∀ (env : WEnv) (w : DfsWorkerSt) (k : Nat),
    1 ≤ countStops (runWork env w k).2 → countStops (runWork env w k).2 = 1

/-- An environment whose stop predicate always fires. -/
def stopEnv : WEnv :=
  { status := fun _ => SpStatus.SS_BRANCH
    alts := fun _ => 2
    stopP := fun _ => true
    c_d := 1
    recomp := fun p => (0, p) }

/-- An environment where every space branches, the stop predicate never
fires, and recomputation returns space `0`. -/
def branchEnv : WEnv :=
  { status := fun _ => SpStatus.SS_BRANCH
    alts := fun _ => 2
    stopP := fun _ => false
    c_d := 8
    recomp := fun p => (0, p) }

/-- A busy worker: not idle, exploring space `5`. -/
def busyWorker : DfsWorkerSt :=
  { path := [], cur := some 5, d := 0, idle := false
    node := 0, fail := 0, memory := 0 }

/-- Events of `DfsWorker::find` (dfs.cpp lines 404-424), in order. -/
inductive FEv where
  /-- `engine.worker(i)->steal()` (line 411). -/
  | stealAttempt (i : Nat)
  /-- The attempt on worker `i` returned space `s`. -/
  | stolen (i s : Nat)
  /-- `m.acquire()` (line 414). -/
  | acquireM
  /-- `idle = false` (line 415). -/
  | setIdleFalse
  /-- `cur = s` (line 416). -/
  | setCur (s : Nat)
  /-- `m.release()` (line 417). -/
  | releaseM
  /-- `Support::Thread::sleep(ms)` (line 422). -/
  | sleepMs (ms : Nat)
deriving DecidableEq, Repr

/-- The sweep of `DfsWorker::find` (dfs.cpp lines 407-420) over the worker
indices `l`: indices equal to `self` are skipped (line 408); on the first
successful `steal` the worker acquires `m`, sets `idle = false`, sets `cur`
to the stolen space, releases `m` and leaves the loop (`break`, line 418).
Returns the events and the stolen space, if any. -/
def findSweep (self : Nat) (stealRes : Nat → Option Nat) :
    List Nat → List FEv × Option Nat
  | [] => ([], none)
  | i :: rest =>
    if i = self then findSweep self stealRes rest
    else
      match stealRes i with
      | some s =>
        ([.stealAttempt i, .stolen i s, .acquireM, .setIdleFalse,
            .setCur s, .releaseM], some s)
      | none =>
        let r := findSweep self stealRes rest
        (.stealAttempt i :: r.1, r.2)

/-- `DfsWorker::find` (dfs.cpp lines 404-424): the sweep over all `n`
worker indices followed — unconditionally, whether or not a steal
succeeded — by `Support::Thread::sleep(10)` (line 422). -/
def find (self n : Nat) (stealRes : Nat → Option Nat) :
    List FEv × Option Nat :=
  let r := findSweep self stealRes (List.range n)
  (r.1 ++ [.sleepMs 10], r.2)

/-- The claim formalised for refutation: when some steal succeeded,
`find()` returns without sleeping. -/
def NoSleepOnStealClaim : Prop :=
  ∀ (self n : Nat) (stealRes : Nat → Option Nat),
    (find self n stealRes).2.isSome = true →
    FEv.sleepMs 10 ∉ (find self n stealRes).1

/-- A steal-result function: only worker `0` has work, space `42`. -/
def stealOnlyZero : Nat → Option Nat :=
  fun i => if i = 0 then some 42 else none

/-- Claim C1: for every engine state in which the solutions queue is empty
and `n_busy` equals 0 or `has_stopped` is true, `DfsEngine::next()` returns
`NULL` rather than a solution — both at its first check (dfs.cpp lines
269-281) and at the check inside its wait loop (lines 295-313); moreover
the exhaustion test of the wait loop, which compares `n_busy` against the
null sentinel `NULL`, denotes equality with zero. -/
theorem C1_next_returns_none (st : SearchState)
    (hsol : st.solutions = [])
    (hcond : st.n_busy = 0 ∨ st.has_stopped = true) :
    (DfsEngine.nextFirstCheck st).1 = some none ∧
    (DfsEngine.nextLoopCheck st).1 = some none ∧
    (∀ n : Nat, (n = NULLsentinel) ↔ (n = 0)) := by
  refine ⟨?_, ?_, fun n => Iff.rfl⟩
  · unfold DfsEngine.nextFirstCheck
    rw [hsol]
    simp [hcond]
  · unfold DfsEngine.nextLoopCheck
    rw [hsol]
    simp [NULLsentinel, hcond]

/-- Witness for C1 at the concrete exhausted state. -/
theorem C1_witness :
    (DfsEngine.nextFirstCheck ⟨[], 0, false⟩).1 = some none ∧
    (DfsEngine.nextLoopCheck ⟨[], 0, false⟩).1 = some none ∧
    (∀ n : Nat, (n = NULLsentinel) ↔ (n = 0)) :=
  C1_next_returns_none ⟨[], 0, false⟩ rfl (Or.inl rfl)

/-- Claim C2, evaluated at the failing input: for a root space whose status
is `SS_FAILED` and a single worker, the code's `DfsEngine::statistics()`
returns the default-constructed record (`fail = 0`) for every worker list,
while the claimed sum over `DfsWorker::statistics()` has `fail = 1` — the
two disagree, exhibiting that `statistics()` never consults the workers. -/
theorem C2_statistics_evaluation :
    (∀ ws : List DfsWorkerSt, DfsEngine.statisticsImpl ws = ⟨0, 0, 0⟩) ∧
    (mkDfsWorker (some ⟨0, true⟩)).fail = 1 ∧
    specStatistics [mkDfsWorker (some ⟨0, true⟩)] = ⟨0, 1, 0⟩ ∧
    DfsEngine.statisticsImpl [mkDfsWorker (some ⟨0, true⟩)] ≠
      specStatistics [mkDfsWorker (some ⟨0, true⟩)] :=
  ⟨fun _ => rfl, by decide, by decide, by decide⟩

/-- Claim C3: for each worker-side update of the shared search state —
`DfsEngine::solution`, `DfsEngine::stop`, `DfsEngine::idle` —
`e_search.signal()` is called only if the predicate `signal()`
(`solutions.empty() && n_busy > 0 && !has_stopped`) held immediately before
the update; for an idle report, additionally only when the report
decrements `n_busy` to exactly 0. -/
theorem C3_signal_only_when_needed (st : SearchState) (s : Nat) :
    ((DfsEngine.solution st s).2 = true →
      st.solutions = [] ∧ 0 < st.n_busy ∧ st.has_stopped = false) ∧
    ((DfsEngine.stop st).2 = true →
      st.solutions = [] ∧ 0 < st.n_busy ∧ st.has_stopped = false) ∧
    ((DfsEngine.idle st).2 = true →
      (st.solutions = [] ∧ 0 < st.n_busy ∧ st.has_stopped = false) ∧
      (DfsEngine.idle st).1.n_busy = 0) := by
  simp only [DfsEngine.solution, DfsEngine.stop, DfsEngine.idle,
    DfsEngine.signal, Bool.and_eq_true, decide_eq_true_eq,
    Bool.not_eq_true', List.isEmpty_iff]
  refine ⟨fun h => ⟨h.1.1, h.1.2, h.2⟩, fun h => ⟨h.1.1, h.1.2, h.2⟩,
    fun h => ⟨⟨h.1.1.1, h.1.1.2, h.1.2⟩, h.2⟩⟩

/-- Witness for C3: the solution report from the state with one busy
worker, no queued solution and no stop signals, so the conditions held. -/
theorem C3_witness :
    ([] : List Nat) = [] ∧ 0 < 1 ∧ false = false :=
  (C3_signal_only_when_needed ⟨[], 1, false⟩ 5).1 (by decide)

/-- Every operation of a run touches `_cmd`/`_m_wait` through `block()`,
`release(C_WORK)` or `release(C_TERMINATE)` only. -/
theorem mem_flatMap_nextCallOps {op : EOp} {ks : List Bool}
    (h : op ∈ ks.flatMap nextCallOps) :
    op = EOp.release Cmd.C_WORK ∨ op = EOp.block := by
  simp only [List.mem_flatMap] at h
  obtain ⟨k, _, hop⟩ := h
  cases k
  · simp [nextCallOps] at hop
  · simp only [nextCallOps, if_pos, List.mem_cons, List.mem_singleton] at hop
    rcases hop with h1 | h1 | h1
    · exact Or.inl h1
    · exact Or.inr h1
    · simp at h1

/-- Shape of the operations in a complete run. -/
theorem mem_runCalls {op : EOp} {ks : List Bool} (h : op ∈ runCalls ks) :
    op = EOp.block ∨ op = EOp.release Cmd.C_WORK ∨
      op = EOp.release Cmd.C_TERMINATE := by
  simp only [runCalls, List.mem_cons, List.mem_append,
    List.mem_singleton] at h
  rcases h with h | h | h | h
  · exact Or.inl h
  · rcases mem_flatMap_nextCallOps h with h1 | h1
    · exact Or.inr (Or.inl h1)
    · exact Or.inl h1
  · exact Or.inr (Or.inr h)
  · simp at h

/-- The command writes of the `next()` calls followed by the destructor
form `(C_WORK, C_WAIT)*, C_TERMINATE`. -/
theorem cmdCycles_flatMap (ks : List Bool) :
    CmdCycles ((ks.flatMap nextCallOps).map cmdWritten ++ [Cmd.C_TERMINATE]) := by
  induction ks with
  | nil => exact CmdCycles.last
  | cons k ks ih =>
    cases k
    · simpa [nextCallOps] using ih
    · simpa [nextCallOps, cmdWritten] using CmdCycles.cycle ih

/-- Running one more operation after a sequence. -/
theorem execOps_concat (l : List EOp) (op : EOp) (s : CmdState) :
    execOps (l ++ [op]) s = applyOp op (execOps l s) := by
  simp [execOps, List.foldl_append]

/-- Claim C4: along any engine run — constructor, a sequence of `next()`
calls, destructor — the engine holds `_m_wait` exactly when `_cmd` is
`C_WAIT` in every state reached after a complete `block()`/`release()`
operation (each of which first publishes the command and then
acquires/releases the lock), and the sequence of command values published
over the run is `C_WAIT, (C_WORK, C_WAIT)*, C_TERMINATE`. -/
theorem C4_wait_lock_cmd (ks : List Bool) :
    EngineCmdSeq ((runCalls ks).map cmdWritten) ∧
    ∀ (s0 : CmdState) (pre suf : List EOp),
      runCalls ks = pre ++ suf → pre ≠ [] →
      ((execOps pre s0).lockHeld = true ↔ (execOps pre s0).cmd = Cmd.C_WAIT) := by
  constructor
  · have h1 : (runCalls ks).map cmdWritten =
        Cmd.C_WAIT :: ((ks.flatMap nextCallOps).map cmdWritten ++ [Cmd.C_TERMINATE]) := by
      simp [runCalls, cmdWritten]
    rw [h1]
    exact EngineCmdSeq.intro (cmdCycles_flatMap ks)
  · intro s0 pre suf heq hne
    rcases List.eq_nil_or_concat pre with rfl | ⟨l, op, rfl⟩
    · exact absurd rfl hne
    · rw [List.concat_eq_append] at heq ⊢
      rw [execOps_concat]
      have hop : op ∈ runCalls ks := by
        rw [heq]
        exact List.mem_append_left _ (List.mem_append_right _ (List.mem_singleton_self op))
      rcases mem_runCalls hop with rfl | rfl | rfl
      · simp [applyOp, block, acquireWait, setCmd]
      · simp [applyOp, release, releaseWait, setCmd]
      · simp [applyOp, release, releaseWait, setCmd]

/-- Witness for C4 on the run with one full `next()` call: the final state,
reached after the destructor's `release(C_TERMINATE)`, satisfies the
lock/command invariant, and the published commands alternate. -/
theorem C4_witness :
    EngineCmdSeq ((runCalls [true]).map cmdWritten) ∧
    ((execOps (runCalls [true]) ⟨Cmd.C_WORK, false⟩).lockHeld = true ↔
      (execOps (runCalls [true]) ⟨Cmd.C_WORK, false⟩).cmd = Cmd.C_WAIT) :=
  ⟨(C4_wait_lock_cmd [true]).1,
    (C4_wait_lock_cmd [true]).2 ⟨Cmd.C_WORK, false⟩ (runCalls [true]) []
      (List.append_nil _).symm (by simp [runCalls])⟩

/-- If no event of the right part satisfies `p` and no event of the left
part satisfies `q`, then every `p`-event precedes every `q`-event. -/
theorem precedes_split {p q : CtorEv → Bool} {l1 l2 : List CtorEv}
    (h2 : ∀ e ∈ l2, p e = false) (h1 : ∀ e ∈ l1, q e = false) :
    precedes p q (l1 ++ l2) := by
  intro i j hi hj hp hq
  simp only [List.get_eq_getElem] at hp hq
  have hilt : i < l1.length := by
    by_contra hle
    push_neg at hle
    have hib : i - l1.length < l2.length := by
      rw [List.length_append] at hi
      omega
    have hmem : (l1 ++ l2)[i] ∈ l2 := by
      rw [List.getElem_append_right hle]
      exact List.getElem_mem hib
    rw [h2 _ hmem] at hp
    exact Bool.false_ne_true hp
  have hjge : l1.length ≤ j := by
    by_contra hlt
    push_neg at hlt
    have hmem : (l1 ++ l2)[j] ∈ l1 := by
      rw [List.getElem_append_left hlt]
      exact List.getElem_mem hlt
    rw [h1 _ hmem] at hq
    exact Bool.false_ne_true hq
  omega

/-- Claim C5 is refuted at `N = 1`: in the constructor's event sequence the
thread spawn (index 3) comes before the `n_busy = workers()` write
(index 5), so the claimed order — `n_busy` and `has_stopped` initialised
before the threads are spawned — is false. -/
theorem C5_counterexample : ¬ CtorOrderClaim := by
  intro h
  obtain ⟨-, -, -, -, h5, -⟩ := h 1 (le_refl 1)
  have h53 := h5 5 3 (by decide) (by decide) (by decide) (by decide)
  omega

/-- Claim C5 as amended: the constructor first allocates the `N` workers
(worker 0 with the root, the others empty), then sets `cmd = C_WAIT` and
acquires the wait lock (`block()`), then spawns the `N` OS threads, and
only after spawning initialises `n_busy = N` and `has_stopped = false`. -/
theorem C5_amended (N : Nat) :
    precedes isAlloc isSetCmdWait (ctorEvents N) ∧
    precedes isSetCmdWait isAcquire (ctorEvents N) ∧
    precedes isAcquire isSpawn (ctorEvents N) ∧
    precedes isSpawn isSetNBusy (ctorEvents N) ∧
    precedes isSpawn isSetHasStopped (ctorEvents N) ∧
    precedes isSetNBusy isSetHasStopped (ctorEvents N) ∧
    (∀ i, i < N → CtorEv.spawnThread i ∈ ctorEvents N) ∧
    (∀ i, i < N → CtorEv.allocWorker i (decide (i = 0)) ∈ ctorEvents N) ∧
    (∀ i r, CtorEv.allocWorker i r ∈ ctorEvents N → (r = true ↔ i = 0)) ∧
    CtorEv.setNBusy ∈ ctorEvents N ∧ CtorEv.setHasStopped ∈ ctorEvents N := by
  refine ⟨?_, ?_, ?_, ?_, ?_, ?_, ?_, ?_, ?_, ?_, ?_⟩
  · have hre : ctorEvents N =
        (CtorEv.allocWorker 0 true ::
          (List.range (N - 1)).map (fun i => CtorEv.allocWorker (i + 1) false)) ++
        ([CtorEv.setCmdWait, CtorEv.acquireWaitLock] ++
          ((List.range N).map (fun i => CtorEv.spawnThread i) ++
            [CtorEv.setNNotTerminated, CtorEv.setNBusy, CtorEv.setHasStopped])) := by
      simp [ctorEvents]
    rw [hre]
    refine precedes_split ?_ ?_
    · intro e he
      cases e <;> first | rfl | (exfalso; revert he; simp)
    · intro e he
      cases e <;> first | rfl | (exfalso; revert he; simp)
  · have hre : ctorEvents N =
        ((CtorEv.allocWorker 0 true ::
          (List.range (N - 1)).map (fun i => CtorEv.allocWorker (i + 1) false)) ++
          [CtorEv.setCmdWait]) ++
        ([CtorEv.acquireWaitLock] ++
          ((List.range N).map (fun i => CtorEv.spawnThread i) ++
            [CtorEv.setNNotTerminated, CtorEv.setNBusy, CtorEv.setHasStopped])) := by
      simp [ctorEvents]
    rw [hre]
    refine precedes_split ?_ ?_
    · intro e he
      cases e <;> first | rfl | (exfalso; revert he; simp)
    · intro e he
      cases e <;> first | rfl | (exfalso; revert he; simp)
  · have hre : ctorEvents N =
        ((CtorEv.allocWorker 0 true ::
          (List.range (N - 1)).map (fun i => CtorEv.allocWorker (i + 1) false)) ++
          [CtorEv.setCmdWait, CtorEv.acquireWaitLock]) ++
        ((List.range N).map (fun i => CtorEv.spawnThread i) ++
          [CtorEv.setNNotTerminated, CtorEv.setNBusy, CtorEv.setHasStopped]) := by
      simp [ctorEvents]
    rw [hre]
    refine precedes_split ?_ ?_
    · intro e he
      cases e <;> first | rfl | (exfalso; revert he; simp)
    · intro e he
      cases e <;> first | rfl | (exfalso; revert he; simp)
  · have hre : ctorEvents N =
        ((CtorEv.allocWorker 0 true ::
          (List.range (N - 1)).map (fun i => CtorEv.allocWorker (i + 1) false)) ++
          ([CtorEv.setCmdWait, CtorEv.acquireWaitLock] ++
            ((List.range N).map (fun i => CtorEv.spawnThread i) ++
              [CtorEv.setNNotTerminated]))) ++
        [CtorEv.setNBusy, CtorEv.setHasStopped] := by
      simp [ctorEvents]
    rw [hre]
    refine precedes_split ?_ ?_
    · intro e he
      cases e <;> first | rfl | (exfalso; revert he; simp)
    · intro e he
      cases e <;> first | rfl | (exfalso; revert he; simp)
  · have hre : ctorEvents N =
        ((CtorEv.allocWorker 0 true ::
          (List.range (N - 1)).map (fun i => CtorEv.allocWorker (i + 1) false)) ++
          ([CtorEv.setCmdWait, CtorEv.acquireWaitLock] ++
            ((List.range N).map (fun i => CtorEv.spawnThread i) ++
              [CtorEv.setNNotTerminated, CtorEv.setNBusy]))) ++
        [CtorEv.setHasStopped] := by
      simp [ctorEvents]
    rw [hre]
    refine precedes_split ?_ ?_
    · intro e he
      cases e <;> first | rfl | (exfalso; revert he; simp)
    · intro e he
      cases e <;> first | rfl | (exfalso; revert he; simp)
  · have hre : ctorEvents N =
        ((CtorEv.allocWorker 0 true ::
          (List.range (N - 1)).map (fun i => CtorEv.allocWorker (i + 1) false)) ++
          ([CtorEv.setCmdWait, CtorEv.acquireWaitLock] ++
            ((List.range N).map (fun i => CtorEv.spawnThread i) ++
              [CtorEv.setNNotTerminated, CtorEv.setNBusy]))) ++
        [CtorEv.setHasStopped] := by
      simp [ctorEvents]
    rw [hre]
    refine precedes_split ?_ ?_
    · intro e he
      cases e <;> first | rfl | (exfalso; revert he; simp)
    · intro e he
      cases e <;> first | rfl | (exfalso; revert he; simp)
  · intro i hi
    have hmem : CtorEv.spawnThread i ∈
        (List.range N).map (fun j => CtorEv.spawnThread j) :=
      List.mem_map.2 ⟨i, List.mem_range.2 hi, rfl⟩
    simp only [ctorEvents]
    exact List.mem_append.2 (Or.inl (List.mem_append.2 (Or.inr hmem)))
  · intro i hi
    simp only [ctorEvents]
    match i with
    | 0 =>
      exact List.mem_append.2 (Or.inl (List.mem_append.2 (Or.inl
        (List.mem_append.2 (Or.inl (List.mem_cons_self _ _))))))
    | Nat.succ j =>
      have hj : j < N - 1 := by omega
      have hmem : CtorEv.allocWorker (j + 1) false ∈
          (List.range (N - 1)).map (fun t => CtorEv.allocWorker (t + 1) false) :=
        List.mem_map.2 ⟨j, List.mem_range.2 hj, rfl⟩
      exact List.mem_append.2 (Or.inl (List.mem_append.2 (Or.inl
        (List.mem_append.2 (Or.inl (List.mem_cons_of_mem _ hmem))))))
  · intro i r hmem
    simp only [ctorEvents] at hmem
    rcases List.mem_append.1 hmem with h | h
    · rcases List.mem_append.1 h with h | h
      · rcases List.mem_append.1 h with h | h
        · rcases List.mem_cons.1 h with h | h
          · injection h with h1 h2
            subst h1
            subst h2
            simp
          · obtain ⟨a, -, ha⟩ := List.mem_map.1 h
            injection ha with h1 h2
            subst h1
            subst h2
            simp
        · rcases List.mem_cons.1 h with h | h
          · exact CtorEv.noConfusion h
          · rcases List.mem_cons.1 h with h | h
            · exact CtorEv.noConfusion h
            · exact absurd h (List.not_mem_nil _)
      · obtain ⟨a, -, ha⟩ := List.mem_map.1 h
        exact CtorEv.noConfusion ha
    · rcases List.mem_cons.1 h with h | h
      · exact CtorEv.noConfusion h
      · rcases List.mem_cons.1 h with h | h
        · exact CtorEv.noConfusion h
        · rcases List.mem_cons.1 h with h | h
          · exact CtorEv.noConfusion h
          · exact absurd h (List.not_mem_nil _)
  · exact List.mem_append.2 (Or.inr
      (List.mem_cons_of_mem _ (List.mem_cons_self _ _)))
  · exact List.mem_append.2 (Or.inr (List.mem_cons_of_mem _
      (List.mem_cons_of_mem _ (List.mem_cons_self _ _))))

/-- Witness for C5's amended statement at `N = 2`: the first spawn (index
4) precedes the `n_busy` initialisation (index 7), and worker 1 is
allocated without the root. -/
theorem C5_amended_witness :
    (4 : Nat) < 7 ∧ CtorEv.spawnThread 1 ∈ ctorEvents 2 :=
  ⟨(C5_amended 2).2.2.2.1 4 7 (by decide) (by decide) (by decide) (by decide),
    (C5_amended 2).2.2.2.2.2.2.1 1 (by decide)⟩

/-- Claim C6: in the `SS_BRANCH` case of the worker run loop (dfs.cpp lines
479-494), a snapshot clone of `cur` is passed to `path.push` if and only if
`d == 0` or `d >= c_d`, in which case `d` is reset to 1; otherwise no
snapshot is passed and `d` is incremented; in both cases the frame is
pushed and then alternative 0 is committed on `cur`. -/
theorem C6_branch_snapshot (env : WEnv) (w : DfsWorkerSt) (c : Nat)
    (hidle : w.idle = false) (hcur : w.cur = some c)
    (hstop : env.stopP w.path.length = false)
    (hst : env.status c = SpStatus.SS_BRANCH) :
    ((w.d = 0 ∨ env.c_d ≤ w.d) →
      (workStep env w).2 = [.pathPush c (some c), .commitAlt 0] ∧
      (workStep env w).1.d = 1) ∧
    (¬(w.d = 0 ∨ env.c_d ≤ w.d) →
      (workStep env w).2 = [.pathPush c none, .commitAlt 0] ∧
      (workStep env w).1.d = w.d + 1) := by
  constructor <;> intro h <;>
    simp [workStep, hidle, hcur, hstop, hst, h]

/-- Witness for C6: with `d = 0`, the snapshot is taken and `d` becomes 1. -/
theorem C6_witness :
    (workStep branchEnv busyWorker).2 = [.pathPush 5 (some 5), .commitAlt 0] ∧
    (workStep branchEnv busyWorker).1.d = 1 :=
  (C6_branch_snapshot branchEnv busyWorker 5 rfl rfl rfl rfl).1 (Or.inl rfl)

/-- The worker never attempts to steal from itself during the sweep. -/
theorem findSweep_no_self (self : Nat) (stealRes : Nat → Option Nat) :
    ∀ l : List Nat, FEv.stealAttempt self ∉ (findSweep self stealRes l).1 := by
  intro l
  induction l with
  | nil => simp [findSweep]
  | cons i rest ih =>
    by_cases hself : i = self
    · simpa [findSweep, hself] using ih
    · cases hs : stealRes i with
      | some s0 =>
        simp [findSweep, hself, hs]
        intro hcontra
        exact hself hcontra.symm
      | none =>
        simp only [findSweep, if_neg hself, hs, List.mem_cons]
        rintro (hcontra | hcontra)
        · exact hself (FEv.stealAttempt.inj hcontra).symm
        · exact ih hcontra

/-- Decomposition of a successful sweep: the victims visited before the
successful index `i` were skipped (self) or had nothing to steal, and the
events are the failed attempts followed by the success block. -/
theorem findSweep_some (self : Nat) (stealRes : Nat → Option Nat) (s : Nat) :
    ∀ l : List Nat, (findSweep self stealRes l).2 = some s →
    ∃ l1 i l2, l = l1 ++ i :: l2 ∧
      (∀ j ∈ l1, j = self ∨ stealRes j = none) ∧ i ≠ self ∧
      stealRes i = some s ∧
      (findSweep self stealRes l).1 =
        ((l1.filter (fun j => !(j == self))).map FEv.stealAttempt) ++
          [.stealAttempt i, .stolen i s, .acquireM, .setIdleFalse,
            .setCur s, .releaseM] := by
  intro l
  induction l with
  | nil => intro h; simp [findSweep] at h
  | cons i rest ih =>
    intro h
    by_cases hself : i = self
    · rw [findSweep, if_pos hself] at h
      obtain ⟨l1, i0, l2, hl, hall, hne, hsi, hev⟩ := ih h
      refine ⟨i :: l1, i0, l2, by rw [hl, List.cons_append], ?_, hne, hsi, ?_⟩
      · intro j hj
        rcases List.mem_cons.1 hj with rfl | hj
        · exact Or.inl hself
        · exact hall j hj
      · rw [findSweep, if_pos hself, List.filter_cons]
        have hb : (!(i == self)) = false := by simp [hself]
        rw [hb]
        simpa using hev
    · rw [findSweep, if_neg hself] at h
      cases hs : stealRes i with
      | some s0 =>
        rw [hs] at h
        have hss : s0 = s := Option.some.inj h
        subst hss
        refine ⟨[], i, rest, rfl, by simp, hself, hs, ?_⟩
        rw [findSweep, if_neg hself, hs]
        simp
      | none =>
        rw [hs] at h
        obtain ⟨l1, i0, l2, hl, hall, hne, hsi, hev⟩ := ih h
        refine ⟨i :: l1, i0, l2, by rw [hl, List.cons_append], ?_, hne, hsi, ?_⟩
        · intro j hj
          rcases List.mem_cons.1 hj with rfl | hj
          · exact Or.inr hs
          · exact hall j hj
        · rw [findSweep, if_neg hself, hs, List.filter_cons]
          have hb : (!(i == self)) = true := by simp [hself]
          rw [hb]
          simp only [if_pos, List.map_cons, List.cons_append]
          rw [hev]

/-- Claim C7 is refuted at `self = 1`, two workers, where the steal from
worker 0 succeeds with space 42: `find` sleeps nonetheless — the 10 ms
back-off on line 422 runs unconditionally, after the `break`. -/
theorem C7_counterexample : ¬ NoSleepOnStealClaim := by
  intro h
  exact (h 1 2 stealOnlyZero (by decide)) (by decide)

/-- Claim C7 as amended: `find()` sweeps the peer workers in index order,
skipping itself, up to the first successful steal; on success it acquires
`m`, sets `idle = false` and `cur` to the stolen space and releases `m`;
and in all cases — steal or no steal — its last action is the fixed 10 ms
sleep before returning. -/
theorem C7_amended (self n : Nat) (stealRes : Nat → Option Nat) :
    ((find self n stealRes).1.getLast? = some (.sleepMs 10)) ∧
    (FEv.stealAttempt self ∉ (find self n stealRes).1) ∧
    (∀ s, (find self n stealRes).2 = some s →
      ∃ l1 i l2, List.range n = l1 ++ i :: l2 ∧
        (∀ j ∈ l1, j = self ∨ stealRes j = none) ∧ i ≠ self ∧
        stealRes i = some s ∧
        (find self n stealRes).1 =
          ((l1.filter (fun j => !(j == self))).map FEv.stealAttempt) ++
            [.stealAttempt i, .stolen i s, .acquireM, .setIdleFalse,
              .setCur s, .releaseM, .sleepMs 10]) := by
  refine ⟨?_, ?_, ?_⟩
  · simp [find]
  · intro hmem
    rcases List.mem_append.1 hmem with h | h
    · exact findSweep_no_self self stealRes (List.range n) h
    · rcases List.mem_cons.1 h with h | h
      · exact FEv.noConfusion h
      · exact absurd h (List.not_mem_nil _)
  · intro s hsome
    obtain ⟨l1, i, l2, hl, hall, hne, hsi, hev⟩ :=
      findSweep_some self stealRes s (List.range n) hsome
    refine ⟨l1, i, l2, hl, hall, hne, hsi, ?_⟩
    show (findSweep self stealRes (List.range n)).1 ++ [FEv.sleepMs 10] = _
    rw [hev]
    simp

/-- Witness for C7's amended statement with two workers and `self = 1`: the
successful steal from worker 0 is decomposed, and the event list still ends
with the sleep. -/
theorem C7_amended_witness :
    ((find 1 2 stealOnlyZero).1.getLast? = some (.sleepMs 10)) ∧
    (∃ l1 i l2, List.range 2 = l1 ++ i :: l2 ∧
      (∀ j ∈ l1, j = 1 ∨ stealOnlyZero j = none) ∧ i ≠ 1 ∧
      stealOnlyZero i = some 42 ∧
      (find 1 2 stealOnlyZero).1 =
        ((l1.filter (fun j => !(j == 1))).map FEv.stealAttempt) ++
          [.stealAttempt i, .stolen i 42, .acquireM, .setIdleFalse,
            .setCur 42, .releaseM, .sleepMs 10]) :=
  ⟨(C7_amended 1 2 stealOnlyZero).1,
    (C7_amended 1 2 stealOnlyZero).2.2 42 (by decide)⟩

/-- A `C_WORK` iteration of a non-idle worker with a current space on which
the stop check fires only releases `m` and calls `engine.stop()`, leaving
the worker state unchanged (dfs.cpp lines 450-456): in particular `cur` is
kept, so the next iteration fires again. -/
theorem workStep_stop (env : WEnv) (w : DfsWorkerSt) (c : Nat)
    (hidle : w.idle = false) (hcur : w.cur = some c)
    (hstop : env.stopP w.path.length = true) :
    workStep env w = (w, [WEv.engineStop]) := by
  simp [workStep, hidle, hcur, hstop]

/-- Iterating such a worker reports stop on every single iteration. -/
theorem runWork_stop (env : WEnv) (w : DfsWorkerSt) (c : Nat)
    (hidle : w.idle = false) (hcur : w.cur = some c)
    (hstop : env.stopP w.path.length = true) :
    ∀ k, (runWork env w k).2 = List.replicate k WEv.engineStop := by
  intro k
  induction k with
  | zero => rfl
  | succ k ih =>
    simp [runWork, workStep_stop env w c hidle hcur hstop, ih,
      List.replicate_succ]

/-- No transition ever clears `has_stopped`. -/
theorem step_has_stopped_mono {st st1 : EState} {e : Ev}
    (h : Step st e st1) (hs : st.search.has_stopped = true) :
    st1.search.has_stopped = true := by
  cases h with
  | solutionFound h => simpa [DfsEngine.solution] using hs
  | idleReport h => simpa [DfsEngine.idle] using hs
  | workStolen hv ht => simpa [DfsEngine.busy] using hs
  | stopReport h => simp [DfsEngine.stop]
  | nextSome h => simpa using hs
  | nextNone h1 h2 => exact hs

/-- `has_stopped` is sticky along every execution. -/
theorem trace_has_stopped_mono {st st1 : EState} {evs : List Ev}
    (h : Trace st evs st1) (hs : st.search.has_stopped = true) :
    st1.search.has_stopped = true := by
  induction h with
  | nil => exact hs
  | cons hstep _ ih => exact ih (step_has_stopped_mono hstep hs)

/-- Claim C8 is refuted by two consecutive `C_WORK` iterations of a busy
worker under an always-firing stop predicate: `engine.stop()` is called
twice, not exactly once. -/
theorem C8_counterexample : ¬ StopOnceClaim := by
  intro h
  have h2 := h stopEnv busyWorker 2 (by decide)
  exact absurd h2 (by decide)

/-- Claim C8 as amended: every firing of the stop predicate on a busy
worker calls `engine.stop()`, so the engine can receive several stop
reports; the flag `has_stopped` is set by each report and is sticky (no
transition clears it) for the lifetime of the engine; it is exposed through
`stopped()` and through `next()` returning `NULL` when no solution is
queued; and a stop report signals `e_search` only if `has_stopped` was not
already set, so duplicate reports are suppressed at the signal level. -/
theorem C8_amended :
    (∀ (env : WEnv) (w : DfsWorkerSt) (c : Nat) (k : Nat),
      w.idle = false → w.cur = some c → env.stopP w.path.length = true →
      (runWork env w k).2 = List.replicate k WEv.engineStop) ∧
    (∀ (st st1 : EState) (evs : List Ev),
      Trace st evs st1 → st.search.has_stopped = true →
      st1.search.has_stopped = true) ∧
    (∀ st2 : SearchState, (DfsEngine.stop st2).1.has_stopped = true) ∧
    (∀ st2 : SearchState, DfsEngine.stopped st2 = st2.has_stopped) ∧
    (∀ st2 : SearchState, st2.solutions = [] → st2.has_stopped = true →
      (DfsEngine.nextFirstCheck st2).1 = some none) ∧
    (∀ st2 : SearchState, (DfsEngine.stop st2).2 = true →
      st2.has_stopped = false) := by
  refine ⟨?_, ?_, ?_, ?_, ?_, ?_⟩
  · intro env w c k hidle hcur hstop
    exact runWork_stop env w c hidle hcur hstop k
  · intro st st1 evs h hs
    exact trace_has_stopped_mono h hs
  · intro st2
    rfl
  · intro st2
    rfl
  · intro st2 hsol hst
    unfold DfsEngine.nextFirstCheck
    rw [hsol]
    simp [hst]
  · intro st2 h
    simp only [DfsEngine.stop, DfsEngine.signal, Bool.and_eq_true,
      Bool.not_eq_true'] at h
    exact h.2

/-- Witness for C8's amended statement: the two-iteration run reports stop
twice, and an exhausted stopped state yields `NULL` from `next()`. -/
theorem C8_witness :
    (runWork stopEnv busyWorker 2).2 = List.replicate 2 WEv.engineStop ∧
    (DfsEngine.nextFirstCheck ⟨[], 1, true⟩).1 = some none :=
  ⟨C8_amended.1 stopEnv busyWorker 5 2 rfl rfl rfl,
    C8_amended.2.2.2.2.1 ⟨[], 1, true⟩ rfl rfl⟩

/-- Setting a false entry to true removes exactly one `false` from the
count. -/
theorem count_false_set_true :
    ∀ (l : List Bool) (i : Nat), l.get? i = some false →
      (l.set i true).count false + 1 = l.count false := by
  intro l
  induction l with
  | nil => intro i h; simp at h
  | cons b rest ih =>
    intro i h
    cases i with
    | zero =>
      have hb : b = false := by simpa using h
      subst hb
      simp [List.count_cons]
    | succ j =>
      have hj : rest.get? j = some false := h
      have hc := ih j hj
      cases b <;> simp [List.count_cons] <;> omega

/-- Setting a true entry to false adds exactly one `false` to the count. -/
theorem count_false_set_false :
    ∀ (l : List Bool) (i : Nat), l.get? i = some true →
      (l.set i false).count false = l.count false + 1 := by
  intro l
  induction l with
  | nil => intro i h; simp at h
  | cons b rest ih =>
    intro i h
    cases i with
    | zero =>
      have hb : b = true := by simpa using h
      subst hb
      simp [List.count_cons]
    | succ j =>
      have hj : rest.get? j = some true := h
      have hc := ih j hj
      cases b <;> simp [List.count_cons] <;> omega

/-- The busy count equals the number of non-idle workers, and every
transition preserves this. -/
theorem step_busyInv {st st1 : EState} {e : Ev} (h : Step st e st1)
    (hinv : st.search.n_busy = st.idleW.count false) :
    st1.search.n_busy = st1.idleW.count false := by
  cases h with
  | solutionFound h => simpa [DfsEngine.solution] using hinv
  | idleReport h =>
    have hc := count_false_set_true st.idleW _ h
    simp only [DfsEngine.idle]
    omega
  | workStolen hv ht =>
    have hc := count_false_set_false st.idleW _ ht
    simp only [DfsEngine.busy]
    omega
  | stopReport h => simpa [DfsEngine.stop] using hinv
  | nextSome h => simpa using hinv
  | nextNone h1 h2 => exact hinv

/-- The busy-count invariant along a whole execution. -/
theorem trace_busyInv {st st1 : EState} {evs : List Ev}
    (h : Trace st evs st1)
    (hinv : st.search.n_busy = st.idleW.count false) :
    st1.search.n_busy = st1.idleW.count false := by
  induction h with
  | nil => exact hinv
  | cons hstep _ ih => exact ih (step_busyInv hstep hinv)

/-- From a state with no busy worker and no queued solution, the only
possible transition is a `next()` call returning `NULL`, which changes
nothing. -/
theorem step_frozen {st st1 : EState} {e : Ev}
    (hinv : st.search.n_busy = st.idleW.count false)
    (hnb : st.search.n_busy = 0) (hsol : st.search.solutions = [])
    (h : Step st e st1) :
    st1 = st ∧ e = Ev.nextReturn none := by
  have hzero : st.idleW.count false = 0 := by omega
  have hnf : false ∉ st.idleW := by
    intro hmem
    have := List.count_pos_iff.mpr hmem
    omega
  cases h with
  | solutionFound h => exact absurd (List.get?_mem h) hnf
  | idleReport h => exact absurd (List.get?_mem h) hnf
  | workStolen hv ht => exact absurd (List.get?_mem hv) hnf
  | stopReport h => exact absurd (List.get?_mem h) hnf
  | nextSome h =>
    rw [hsol] at h
    exact List.noConfusion h
  | nextNone h1 h2 => exact ⟨rfl, rfl⟩

/-- From a state with no busy worker and no queued solution, every later
event is a `next()` call returning `NULL` and the state never changes. -/
theorem trace_frozen {st st1 : EState} {evs : List Ev}
    (h : Trace st evs st1) :
    st.search.n_busy = st.idleW.count false → st.search.n_busy = 0 →
    st.search.solutions = [] →
    st1 = st ∧ ∀ e ∈ evs, e = Ev.nextReturn none := by
  induction h with
  | nil => intro _ _ _; exact ⟨rfl, by simp⟩
  | cons hstep _ ih =>
    intro hinv hnb hsol
    obtain ⟨heq, hev⟩ := step_frozen hinv hnb hsol hstep
    subst heq
    obtain ⟨h2, h3⟩ := ih hinv hnb hsol
    refine ⟨h2, ?_⟩
    intro e1 he1
    rcases List.mem_cons.1 he1 with rfl | he1
    · exact hev
    · exact h3 e1 he1

/-- Once `n_busy` is zero it stays zero, along any execution that respects
the busy-count invariant. -/
theorem trace_nbusy_zero {st st1 : EState} {evs : List Ev}
    (h : Trace st evs st1) :
    st.search.n_busy = st.idleW.count false → st.search.n_busy = 0 →
    st1.search.n_busy = 0 := by
  induction h with
  | nil => intro _ h0; exact h0
  | cons hstep _ ih =>
    intro hinv hnb
    have hinv1 := step_busyInv hstep hinv
    refine ih hinv1 ?_
    cases hstep with
      | solutionFound h => simpa [DfsEngine.solution] using hnb
      | idleReport h =>
        simp only [DfsEngine.idle]
        omega
      | workStolen hv ht =>
        exfalso
        have hmem : false ∈ _ := List.get?_mem hv
        have := List.count_pos_iff.mpr hmem
        omega
      | stopReport h => simpa [DfsEngine.stop] using hnb
      | nextSome h => simpa using hnb
      | nextNone h1 h2 => exact hnb

/-- Claim C9 is refuted by an interleaving with one worker: the stop
predicate fires (`has_stopped` becomes true), `next()` returns `NULL`,
the still-running worker then enqueues solution 7, and the following
`next()` returns that solution rather than `NULL`. -/
theorem C9_counterexample : ¬ NextIdempotentClaim := by
  intro h
  have hc := h 1 [Ev.stopReport 0] ⟨⟨[], 1, true⟩, [false]⟩
      ⟨⟨[], 1, true⟩, [false]⟩ [Ev.solutionFound 0 7]
      ⟨⟨[7], 1, true⟩, [false]⟩ ⟨⟨[], 1, true⟩, [false]⟩ (some 7)
      (Trace.cons (Step.stopReport (by decide)) (Trace.nil _))
      (Step.nextNone rfl (Or.inr rfl))
      (Trace.cons (Step.solutionFound (by decide)) (Trace.nil _))
      (Step.nextSome rfl)
  exact Option.noConfusion hc

/-- Claim C9 as amended: the conditions behind a `NULL` return persist —
`has_stopped` is never cleared and `n_busy` never leaves zero — and when a
`next()` observes `n_busy = 0` with an empty solution queue, every later
`next()` call returns `NULL`; only after a `NULL` due to `has_stopped`
alone may a still-busy worker enqueue a solution that a later `next()`
returns. -/
theorem C9_amended (N : Nat) (evs1 : List Ev) (st1 : EState)
    (evs2 : List Ev) (st2 : EState)
    (h1 : Trace (initState N) evs1 st1) (h2 : Trace st1 evs2 st2) :
    (st1.search.has_stopped = true → st2.search.has_stopped = true) ∧
    (st1.search.n_busy = 0 → st2.search.n_busy = 0) ∧
    (st1.search.solutions = [] → st1.search.n_busy = 0 →
      ∀ r, Ev.nextReturn r ∈ evs2 → r = none) := by
  have hinv0 : (initState N).search.n_busy = (initState N).idleW.count false := by
    simp [initState]
  have hinv1 := trace_busyInv h1 hinv0
  refine ⟨fun hs => trace_has_stopped_mono h2 hs,
    fun h0 => trace_nbusy_zero h2 hinv1 h0, ?_⟩
  intro hsol h0 r hr
  obtain ⟨-, hall⟩ := trace_frozen h2 hinv1 h0 hsol
  exact Ev.nextReturn.inj (hall _ hr)

/-- Witness for C9's amended statement: after the lone worker reports
idle, `n_busy` is zero and stays zero across a further `next()` call. -/
theorem C9_amended_witness :
    (⟨⟨[], 0, false⟩, [true]⟩ : EState).search.n_busy = 0 :=
  (C9_amended 1 [Ev.idleReport 0] ⟨⟨[], 0, false⟩, [true]⟩
      [Ev.nextReturn none] ⟨⟨[], 0, false⟩, [true]⟩
      (Trace.cons (Step.idleReport (by decide)) (Trace.nil _))
      (Trace.cons (Step.nextNone rfl (Or.inl rfl)) (Trace.nil _))).2.1 rfl

/-- Claim C10: a worker constructed without a root space starts with
`idle = false`, `cur = NULL` and an empty path — so the constructor's
`n_busy = N` counts it busy, every worker flag starting false — it is left
unchanged by any number of `C_WAIT` iterations, and its first `C_WORK`
iteration finds `path.next` false, sets `idle = true` and reports
`engine.idle()`, whose only effect on `n_busy` is the decrement. -/
theorem C10_empty_worker (env : WEnv) (N : Nat) (k : Nat) :
    (mkDfsWorker none).idle = false ∧ (mkDfsWorker none).cur = none ∧
    (mkDfsWorker none).path = [] ∧
    runSteps env (List.replicate k Cmd.C_WAIT) (mkDfsWorker none) =
      (mkDfsWorker none, []) ∧
    runSteps env (List.replicate k Cmd.C_WAIT ++ [Cmd.C_WORK]) (mkDfsWorker none) =
      ({ mkDfsWorker none with idle := true }, [WEv.engineIdle]) ∧
    (∀ st : SearchState, (DfsEngine.idle st).1.n_busy = st.n_busy - 1) ∧
    (initState N).search.n_busy = N ∧
    (∀ i, i < N → (initState N).idleW.get? i = some false) := by
  have hwait : ∀ j, runSteps env (List.replicate j Cmd.C_WAIT) (mkDfsWorker none) =
      (mkDfsWorker none, []) := by
    intro j
    induction j with
    | zero => rfl
    | succ j ih => simpa [List.replicate_succ, runSteps, runStep] using ih
  have hwork : ∀ j, runSteps env
      (List.replicate j Cmd.C_WAIT ++ [Cmd.C_WORK]) (mkDfsWorker none) =
      ({ mkDfsWorker none with idle := true }, [WEv.engineIdle]) := by
    intro j
    induction j with
    | zero => rfl
    | succ j ih => simpa [List.replicate_succ, runSteps, runStep] using ih
  refine ⟨rfl, rfl, rfl, hwait k, hwork k, fun st => rfl, rfl, ?_⟩
  intro i hi
  rw [List.get?_eq_getElem?]
  simp [initState, List.getElem?_replicate, hi]

/-- Witness for C10 with two workers and a three-iteration wait preamble. -/
theorem C10_witness :
    (initState 2).idleW.get? 1 = some false ∧
    runSteps branchEnv (List.replicate 3 Cmd.C_WAIT ++ [Cmd.C_WORK])
      (mkDfsWorker none) =
      ({ mkDfsWorker none with idle := true }, [WEv.engineIdle]) :=
  ⟨(C10_empty_worker branchEnv 2 3).2.2.2.2.2.2.2 1 (by decide),
    (C10_empty_worker branchEnv 2 3).2.2.2.2.1⟩

end GecodeDfs
